import Mathlib

/-!
Verification of the dividend-tracker projection engine.

Shallow embedding of `src/dividend_tracker`:
* dates are rationals counting days since an arbitrary epoch (a Python
  `datetime` is a point on a continuous timeline; `timedelta(days = q)`
  is addition of the rational `q`; `(d2 - d1).days` is `Rat.floor (d2 - d1)`);
* money amounts are rationals;
* the `while` loop of `estimate_future_dividends` is modelled with explicit
  fuel, returning `none` when the fuel is exhausted while the loop guard
  still holds (so divergence of the Python loop is `none` for every fuel);
* the external market-data provider (`get_dividend_data`, `get_yield_rate`,
  `get_current_price`) is passed in as functions, `none` meaning the
  provider had no data; Python truthiness of a float is `some r` with
  `r ≠ 0`;
* the historical snapshot store (one JSON file per calendar day) is an
  association list from the day key to the file content; a calendar day is
  identified with its integer day number, which is in bijection with the
  `YYYY-MM-DD` string used by `get_historical_filename`.
-/

namespace DividendTracker

/-! ### constants.py -/

def MONTHLY_INTERVAL_MAX : ℚ := 40

def QUARTERLY_INTERVAL_MAX : ℚ := 100

def SEMI_ANNUAL_INTERVAL_MAX : ℚ := 200

def MAX_PROJECTED_DIVIDENDS : Nat := 20

/-! ### core/calculator.py -/

/-- `_detect_frequency` (calculator.py, lines 28-36): classify the average
inter-payment interval, in days, into a frequency bucket. -/
def detect_frequency (avg_interval : ℚ) : String :=
  if avg_interval < MONTHLY_INTERVAL_MAX then "monthly"
  else if avg_interval < QUARTERLY_INTERVAL_MAX then "quarterly"
  else if avg_interval < SEMI_ANNUAL_INTERVAL_MAX then "semi-annual"
  else "annual"

/-- `div_list.sort(key=lambda x: x[0])` (calculator.py, line 60): the
dividend history, as (date, amount) pairs, sorted by date.  The Python sort
is stable; `List.insertionSort` is a stable sort, so pairs with equal
dates keep their input order, as in the source. -/
def sortedDivs (divs : List (ℚ × ℚ)) : List (ℚ × ℚ) :=
  divs.insertionSort (fun a b => a.1 ≤ b.1)

/-- The list comprehension of calculator.py, lines 62-64: the up-to-4 most
recent inter-payment gaps in whole days,
`[(div_list[-i][0] - div_list[-i-1][0]).days for i in range(1, min(5, len(div_list)))]`.
Walking the reversed sorted date list pairwise yields exactly the gaps
`l[-i] - l[-i-1]` for `i = 1, 2, ...`; `range(1, min(5, n))` keeps the
first `min(5, n) - 1` of them, i.e. at most 4 and never more than exist. -/
def recentIntervals (dates : List ℚ) : List ℤ :=
  ((dates.reverse.zip dates.reverse.tail).map (fun p => Rat.floor (p.1 - p.2))).take 4

def intervalsOf (divs : List (ℚ × ℚ)) : List ℤ :=
  recentIntervals ((sortedDivs divs).map Prod.fst)

/-- `avg_interval = sum(intervals) / len(intervals)` (calculator.py, line 69). -/
def avgOfIntervals (ints : List ℤ) : ℚ :=
  (ints.map (fun i : ℤ => (i : ℚ))).sum / (ints.length : ℚ)

def avgIntervalOf (divs : List (ℚ × ℚ)) : ℚ :=
  avgOfIntervals (intervalsOf divs)

/-- `last_date, last_amount = div_list[-1]` (calculator.py, line 74); the
default is irrelevant because the caller guarantees at least two entries. -/
def lastDivOf (divs : List (ℚ × ℚ)) : ℚ × ℚ :=
  (sortedDivs divs).getLastD (0, 0)

/-- The `while` loop of calculator.py, lines 80-83, with explicit fuel:

    while next_date <= projection_end and len(future_dividends) < MAX_PROJECTED_DIVIDENDS:
        if next_date > current_date:
            future_dividends.append((next_date, last_amount))
        next_date += timedelta(days=avg_interval)

`none` means the fuel ran out while the guard still held; the Python loop
diverges exactly when this happens for every fuel. -/
def projectLoop (current_date projection_end avg_interval last_amount : ℚ) :
    Nat → ℚ → List (ℚ × ℚ) → Option (List (ℚ × ℚ))
  | 0, next_date, acc =>
      if next_date ≤ projection_end ∧ acc.length < MAX_PROJECTED_DIVIDENDS then none
      else some acc
  | fuel + 1, next_date, acc =>
      if next_date ≤ projection_end ∧ acc.length < MAX_PROJECTED_DIVIDENDS then
        projectLoop current_date projection_end avg_interval last_amount fuel
          (next_date + avg_interval)
          (if current_date < next_date then acc ++ [(next_date, last_amount)] else acc)
      else some acc

/-- Ghost instrumentation of `projectLoop`: one boolean per loop iteration,
`true` when the candidate `next_date` passed the `next_date > current_date`
test (and was appended), `false` when it was silently dropped.  The `count`
argument tracks `len(future_dividends)`. -/
def projectFlags (current_date projection_end avg_interval : ℚ) :
    Nat → ℚ → Nat → List Bool
  | 0, _, _ => []
  | fuel + 1, next_date, count =>
      if next_date ≤ projection_end ∧ count < MAX_PROJECTED_DIVIDENDS then
        decide (current_date < next_date) ::
          projectFlags current_date projection_end avg_interval fuel
            (next_date + avg_interval)
            (count + if current_date < next_date then 1 else 0)
      else []

/-- `estimate_future_dividends` (calculator.py, lines 39-85).  `dividends = none`
models a `None` pandas series; the result is `(future_dividends, frequency,
avg_interval)`, or `none` when the projection loop exhausts its fuel. -/
def estimate_future_dividends (dividends : Option (List (ℚ × ℚ)))
    (months_ahead : ℤ) (current_date : ℚ) (fuel : Nat) :
    Option (List (ℚ × ℚ) × String × ℚ) :=
  match dividends with
  | none => some ([], "unknown", 0)
  | some divs =>
    if divs.length < 2 then some ([], "unknown", 0)
    else if (intervalsOf divs).length = 0 then some ([], "unknown", 0)
    else
      let avg_interval := avgIntervalOf divs
      let projection_end := current_date + 30 * (months_ahead : ℚ)
      match projectLoop current_date projection_end avg_interval (lastDivOf divs).2 fuel
          ((lastDivOf divs).1 + avg_interval) [] with
      | some future => some (future, detect_frequency avg_interval, avg_interval)
      | none => none

/-- The drop/keep trace of the projection loop run by
`estimate_future_dividends divs` (same initial state as the loop there). -/
def estimateFlags (divs : List (ℚ × ℚ)) (months_ahead : ℤ)
    (current_date : ℚ) (fuel : Nat) : List Bool :=
  projectFlags current_date (current_date + 30 * (months_ahead : ℚ)) (avgIntervalOf divs)
    fuel ((lastDivOf divs).1 + avgIntervalOf divs) 0

/-- `DividendDetail` (types.py): one record per projected payment. -/
structure DividendDetail where
  symbol : String
  date : ℚ
  amount_per_share : ℚ
  shares : ℚ
  total : ℚ
deriving DecidableEq

/-- `monthly_totals[month_key] += total` on a `defaultdict(float)`
(calculator.py, line 154), with the dict as an insertion-ordered
association list: add to the existing key or append a new one at the end. -/
def addToKey (m : List (String × ℚ)) (k : String) (v : ℚ) : List (String × ℚ) :=
  match m with
  | [] => [(k, v)]
  | (k2, v2) :: rest => if k2 = k then (k2, v2 + v) :: rest else (k2, v2) :: addToKey rest k v

/-- `d[symbol] = x` on a plain dict (calculator.py, lines 136 and 148):
overwrite the existing key or append a new one at the end. -/
def setKey (m : List (String × ℚ)) (k : String) (v : ℚ) : List (String × ℚ) :=
  match m with
  | [] => [(k, v)]
  | (k2, v2) :: rest => if k2 = k then (k2, v) :: rest else (k2, v2) :: setKey rest k v

/-- The fallback block of `calculate_dividends` (calculator.py, lines
129-138): for a symbol without dividend history, store
`price * yield_rate * shares` as its annual dividend when a truthy yield
rate and a truthy price are both obtainable, else store nothing. -/
def fallbackAnnual (getYield getPrice : String → Option ℚ) (symbol : String)
    (shares : ℚ) (annual : List (String × ℚ)) : List (String × ℚ) :=
  match getYield symbol with
  | some yield_rate =>
    if yield_rate ≠ 0 then
      match getPrice symbol with
      | some price =>
        if price ≠ 0 then setKey annual symbol (price * yield_rate * shares) else annual
      | none => annual
    else annual
  | none => annual

/-- One iteration of the symbol loop of `calculate_dividends`
(calculator.py, lines 117-164), acting on the accumulated state
`(monthly_totals, dividend_details, stock_annual_dividends)`.
The external provider calls `get_dividend_data`, `get_yield_rate` and
`get_current_price` are the function parameters `getDiv`, `getYield` and
`getPrice` (`none` = no data; Python float truthiness = `some r` with
`r ≠ 0`); `monthKey` is `div_date.strftime("%B %Y")`, the calendar-month
label of a date — an external pure function of the date whose exact form
none of the aggregation claims depend on. -/
def processSymbol (getDiv : String → Option (List (ℚ × ℚ)))
    (getYield : String → Option ℚ) (getPrice : String → Option ℚ)
    (monthKey : ℚ → String) (months_ahead : ℤ) (current_date : ℚ) (fuel : Nat)
    (symbol : String) (shares? : Option ℚ)
    (st : List (String × ℚ) × List DividendDetail × List (String × ℚ)) :
    Option (List (String × ℚ) × List DividendDetail × List (String × ℚ)) :=
  match shares? with
  | none => some st
  | some shares =>
    match getDiv symbol with
    | none =>
      some (st.1, st.2.1, fallbackAnnual getYield getPrice symbol shares st.2.2)
    | some [] =>
      some (st.1, st.2.1, fallbackAnnual getYield getPrice symbol shares st.2.2)
    | some divs =>
      match estimate_future_dividends (some divs) months_ahead current_date fuel with
      | none => none
      | some (future, _, _) =>
        some
          (future.foldl (fun m p => addToKey m (monthKey p.1) (p.2 * shares)) st.1,
           st.2.1 ++ future.map (fun p =>
             { symbol := symbol, date := p.1, amount_per_share := p.2,
               shares := shares, total := p.2 * shares }),
           setKey st.2.2 symbol ((future.map (fun p => p.2 * shares)).sum))

/-- The symbol loop of `calculate_dividends` over the whole portfolio. -/
def calcDivLoop (getDiv : String → Option (List (ℚ × ℚ)))
    (getYield : String → Option ℚ) (getPrice : String → Option ℚ)
    (monthKey : ℚ → String) (months_ahead : ℤ) (current_date : ℚ) (fuel : Nat) :
    List (String × Option ℚ) →
    List (String × ℚ) × List DividendDetail × List (String × ℚ) →
    Option (List (String × ℚ) × List DividendDetail × List (String × ℚ))
  | [], st => some st
  | (symbol, shares?) :: rest, st =>
    match processSymbol getDiv getYield getPrice monthKey months_ahead current_date fuel
        symbol shares? st with
    | none => none
    | some st2 =>
      calcDivLoop getDiv getYield getPrice monthKey months_ahead current_date fuel rest st2

/-- `calculate_dividends` (calculator.py, lines 93-166): run the symbol
loop from empty accumulators, returning
`(monthly_totals, dividend_details, stock_annual_dividends)`. -/
def calculate_dividends (getDiv : String → Option (List (ℚ × ℚ)))
    (getYield : String → Option ℚ) (getPrice : String → Option ℚ)
    (monthKey : ℚ → String) (months_ahead : ℤ) (current_date : ℚ) (fuel : Nat)
    (portfolio : List (String × Option ℚ)) :
    Option (List (String × ℚ) × List DividendDetail × List (String × ℚ)) :=
  calcDivLoop getDiv getYield getPrice monthKey months_ahead current_date fuel
    portfolio ([], [], [])

/-! ### ui/historical_display.py — trend percentages -/

/-- The numeric core of `_format_change` (historical_display.py, lines
176-186): `(change, change_pct)` against the previous snapshot value, or
`none` for the first row; the rich-text rendering of the pair is omitted.
`change_pct = (change / prev_value * 100) if prev_value > 0 else 0`. -/
def format_change (value : ℚ) (prev_value : Option ℚ) : Option (ℚ × ℚ) :=
  match prev_value with
  | none => none
  | some pv => some (value - pv, if pv > 0 then (value - pv) / pv * 100 else 0)

/-- `value_change_pct` of `_render_period_summary` (historical_display.py,
line 203). -/
def period_value_change_pct (first_value last_value : ℚ) : ℚ :=
  if first_value > 0 then (last_value - first_value) / first_value * 100 else 0

/-- `div_change_pct` of `_render_period_summary` (historical_display.py,
line 206). -/
def period_div_change_pct (first_annual_div last_annual_div : ℚ) : ℚ :=
  if first_annual_div > 0 then (last_annual_div - first_annual_div) / first_annual_div * 100
  else 0

/-! ### core/historical_storage.py — the snapshot store

A persisted snapshot file is addressed by the calendar day of `run_date`
(`projection_YYYY-MM-DD.json`); the calendar day is identified with its
integer day number `run_date : ℤ`, in bijection with the `YYYY-MM-DD`
string.  The filesystem directory is an association list from day key to
file content; a file that exists but holds unparseable JSON is
`FileContent.corrupt`. -/

/-- The in-memory per-symbol metric (`StockMetric` of types.py):
`shares` and `current_value` are always present, the rest are optional
(`None` in Python). -/
structure StockMetric where
  shares : ℚ
  current_price : Option ℚ
  current_value : ℚ
  cost_basis : Option ℚ
  gain_loss : Option ℚ
  gain_loss_pct : Option ℚ
deriving DecidableEq

/-- A key/value entry for an optional field: present fields produce one
entry, absent (`None`) fields produce nothing at all. -/
def optField (name : String) (v : Option ℚ) : List (String × ℚ) :=
  match v with
  | some x => [(name, x)]
  | none => []

/-- `_serialize_metrics` applied to one metric (historical_storage.py,
lines 34-39): `{k: v for k, v in data.items() if v is not None}` — the
fields in dict insertion order (see `calculate_metrics`, lines 212-219),
with `None`-valued keys omitted entirely (no null token). -/
def serializeMetric (m : StockMetric) : List (String × ℚ) :=
  [("shares", m.shares)] ++ optField "current_price" m.current_price
    ++ [("current_value", m.current_value)] ++ optField "cost_basis" m.cost_basis
    ++ optField "gain_loss" m.gain_loss ++ optField "gain_loss_pct" m.gain_loss_pct

/-- The persisted record (`HistoricalData` of types.py), with metrics in
serialized (None-stripped) form. -/
structure HistoricalData where
  date : ℤ
  portfolio_file : String
  total_value : ℚ
  total_cost : ℚ
  monthly_dividends : List (String × ℚ)
  stock_annual_dividends : List (String × ℚ)
  metrics : List (String × List (String × ℚ))
deriving DecidableEq

/-- The in-memory calculation results passed to `save_historical`
(`CalculationResults` of types.py, `total=False`: every key optional;
`results.get(k, default)` is `Option.getD`). -/
structure CalcResults where
  total_value : Option ℚ
  total_cost : Option ℚ
  monthly_dividends : Option (List (String × ℚ))
  stock_annual_dividends : Option (List (String × ℚ))
  metrics : Option (List (String × StockMetric))
deriving DecidableEq

/-- Content of one persisted file: a parseable snapshot record, or
unparseable bytes. -/
inductive FileContent where
  | valid : HistoricalData → FileContent
  | corrupt : FileContent
deriving DecidableEq

/-- The historical directory: one entry per existing file, keyed by day. -/
abbrev Store := List (ℤ × FileContent)

/-- Writing a file: replace the slot if the name exists, else create it. -/
def writeFile (st : Store) (k : ℤ) (c : FileContent) : Store :=
  match st with
  | [] => [(k, c)]
  | (k2, c2) :: rest => if k2 = k then (k, c) :: rest else (k2, c2) :: writeFile rest k c

/-- Reading a file: the content of the slot, if the name exists. -/
def readFile (st : Store) (k : ℤ) : Option FileContent :=
  match st with
  | [] => none
  | (k2, c) :: rest => if k2 = k then some c else readFile rest k

/-- `get_historical_filename` (historical_storage.py, lines 21-26), with
the day key standing in for its `YYYY-MM-DD` rendering. -/
def get_historical_filename (run_date : ℤ) : String :=
  "projection_" ++ toString run_date ++ ".json"

/-- The `historical_data` dict built by `save_historical`
(historical_storage.py, lines 68-76): snapshot-level fields default via
`results.get(key, default)`, metrics are serialized with `None` fields
dropped. -/
def serialize_results (results : CalcResults) (portfolio_path : String)
    (run_date : ℤ) : HistoricalData :=
  { date := run_date
    portfolio_file := portfolio_path
    total_value := results.total_value.getD 0
    total_cost := results.total_cost.getD 0
    monthly_dividends := results.monthly_dividends.getD []
    stock_annual_dividends := results.stock_annual_dividends.getD []
    metrics := (results.metrics.getD []).map (fun p => (p.1, serializeMetric p.2)) }

/-- `save_historical` (historical_storage.py, lines 42-82): serialize the
results and write them to the file for `run_date`, overwriting an existing
file. -/
def save_historical (st : Store) (results : CalcResults) (portfolio_path : String)
    (run_date : ℤ) : Store :=
  writeFile st run_date (FileContent.valid (serialize_results results portfolio_path run_date))

/-- The exceptions raised by the storage module (exceptions.py):
`HistoricalDataCorruptError(path, reason)`. -/
inductive HistError where
  | corruptData (path : String) (reason : String)
deriving DecidableEq

/-- `load_historical` (historical_storage.py, lines 85-109): missing file
→ `ok none` (the Python `None` return); existing but unparseable file →
`error` (the raised `HistoricalDataCorruptError`); existing parseable file
→ `ok (some data)`. -/
def load_historical (st : Store) (run_date : ℤ) :
    Except HistError (Option HistoricalData) :=
  match readFile st run_date with
  | none => Except.ok none
  | some (FileContent.valid d) => Except.ok (some d)
  | some FileContent.corrupt =>
    Except.error (HistError.corruptData (get_historical_filename run_date) "JSONDecodeError")

/-- `load_historical` of the superseded module core/historical.py (lines
96-121), the one re-exported by core/__init__.py: its
`except Exception: return None` turns an unparseable file into the same
`None` as a missing file. -/
def load_historical_legacy (st : Store) (run_date : ℤ) : Option HistoricalData :=
  match readFile st run_date with
  | none => none
  | some (FileContent.valid d) => some d
  | some FileContent.corrupt => none

/-- `list_historical_dates` (historical_storage.py, lines 112-127): the
day keys of the existing files, sorted ascending. -/
def list_historical_dates (st : Store) : List ℤ :=
  (st.map Prod.fst).insertionSort (fun a b => a ≤ b)

/-! ### Lemmas about the projection loop -/

theorem projectLoop_inv (cd pe iv la : ℚ) :
    ∀ (fuel : Nat) (next : ℚ) (acc res : List (ℚ × ℚ)),
      acc.length ≤ MAX_PROJECTED_DIVIDENDS →
      (∀ p ∈ acc, cd < p.1 ∧ p.1 ≤ pe) →
      projectLoop cd pe iv la fuel next acc = some res →
      res.length ≤ MAX_PROJECTED_DIVIDENDS ∧ ∀ p ∈ res, cd < p.1 ∧ p.1 ≤ pe := by
  intro fuel
  induction fuel with
  | zero =>
    intro next acc res hlen hmem h
    unfold projectLoop at h
    split at h
    · exact Option.noConfusion h
    · obtain rfl := Option.some.inj h
      exact ⟨hlen, hmem⟩
  | succ n ih =>
    intro next acc res hlen hmem h
    unfold projectLoop at h
    split at h
    next hg =>
      by_cases hcd : cd < next
      · rw [if_pos hcd] at h
        refine ih _ _ _ ?_ ?_ h
        · have h2 := hg.2
          simp only [MAX_PROJECTED_DIVIDENDS] at h2 ⊢
          simp only [List.length_append, List.length_cons, List.length_nil]
          omega
        · intro p hp
          rcases List.mem_append.mp hp with hp | hp
          · exact hmem p hp
          · obtain rfl : p = (next, la) := by simpa using hp
            exact ⟨hcd, hg.1⟩
      · rw [if_neg hcd] at h
        exact ih _ _ _ hlen hmem h
    next =>
      obtain rfl := Option.some.inj h
      exact ⟨hlen, hmem⟩

/-- C1: for every dividend history, `months_ahead`, calculation time and
fuel, a successful run of `estimate_future_dividends` returns at most
`MAX_PROJECTED_DIVIDENDS = 20` projected payments, every one dated strictly
after the calculation time `current_date`; moreover no projected date
exceeds the projection end `current_date + 30 * months_ahead` days, and the
loop stops at whichever bound (projection end, 20-payment cap) is hit
first, as embedded in `projectLoop`. -/
theorem estimate_future_dividends_bounds (dividends : Option (List (ℚ × ℚ)))
    (months_ahead : ℤ) (current_date : ℚ) (fuel : Nat)
    (future : List (ℚ × ℚ)) (freq : String) (avg : ℚ)
    (h : estimate_future_dividends dividends months_ahead current_date fuel
          = some (future, freq, avg)) :
    future.length ≤ MAX_PROJECTED_DIVIDENDS ∧
      ∀ p ∈ future, current_date < p.1 ∧ p.1 ≤ current_date + 30 * (months_ahead : ℚ) := by
  cases dividends with
  | none =>
    simp only [estimate_future_dividends, Option.some.injEq, Prod.mk.injEq] at h
    obtain ⟨rfl, -⟩ := h
    exact ⟨by simp [MAX_PROJECTED_DIVIDENDS], by simp⟩
  | some divs =>
    simp only [estimate_future_dividends] at h
    split at h
    · simp only [Option.some.injEq, Prod.mk.injEq] at h
      obtain ⟨rfl, -⟩ := h
      exact ⟨by simp [MAX_PROJECTED_DIVIDENDS], by simp⟩
    · split at h
      · simp only [Option.some.injEq, Prod.mk.injEq] at h
        obtain ⟨rfl, -⟩ := h
        exact ⟨by simp [MAX_PROJECTED_DIVIDENDS], by simp⟩
      · split at h
        next fut hloop =>
          simp only [Option.some.injEq, Prod.mk.injEq] at h
          obtain ⟨rfl, -⟩ := h
          exact projectLoop_inv _ _ _ _ _ _ _ _ (by simp [MAX_PROJECTED_DIVIDENDS])
            (by simp) hloop
        next => exact Option.noConfusion h

theorem estimate_future_dividends_bounds_witness :
    ([((182 : ℚ), (6 : ℚ)/25), (273, 6/25), (364, 6/25), (455, 6/25)].length
        ≤ MAX_PROJECTED_DIVIDENDS) ∧
      ∀ p ∈ [((182 : ℚ), (6 : ℚ)/25), (273, 6/25), (364, 6/25), (455, 6/25)],
        (100 : ℚ) < p.1 ∧ p.1 ≤ 100 + 30 * ((12 : ℤ) : ℚ) :=
  estimate_future_dividends_bounds (some [(0, 24/100), (91, 24/100)]) 12 100 50
    [((182 : ℚ), (6 : ℚ)/25), (273, 6/25), (364, 6/25), (455, 6/25)] "quarterly" 91
    (by with_unfolding_all decide)

/-- C2: the frequency classifier maps an average interval `I` to
"monthly" iff `I < 40`, to "quarterly" iff `40 ≤ I < 100`, to
"semi-annual" iff `100 ≤ I < 200` and to "annual" iff `200 ≤ I`; each
threshold is an exclusive upper bound, so the boundary values 40, 100 and
200 land in the higher bucket. -/
theorem detect_frequency_buckets (I : ℚ) :
    (detect_frequency I = "monthly" ↔ I < 40) ∧
    (detect_frequency I = "quarterly" ↔ 40 ≤ I ∧ I < 100) ∧
    (detect_frequency I = "semi-annual" ↔ 100 ≤ I ∧ I < 200) ∧
    (detect_frequency I = "annual" ↔ 200 ≤ I) := by
  rcases lt_or_le I 40 with h1 | h1
  · have hd : detect_frequency I = "monthly" := by
      simp [detect_frequency, MONTHLY_INTERVAL_MAX, h1]
    rw [hd]
    refine ⟨iff_of_true rfl h1, iff_of_false (by decide) ?_, iff_of_false (by decide) ?_,
      iff_of_false (by decide) ?_⟩
    · rintro ⟨h, -⟩; linarith
    · rintro ⟨h, -⟩; linarith
    · intro h; linarith
  · rcases lt_or_le I 100 with h2 | h2
    · have hd : detect_frequency I = "quarterly" := by
        simp [detect_frequency, MONTHLY_INTERVAL_MAX, QUARTERLY_INTERVAL_MAX,
          not_lt.mpr h1, h2]
      rw [hd]
      refine ⟨iff_of_false (by decide) ?_, iff_of_true rfl ⟨h1, h2⟩,
        iff_of_false (by decide) ?_, iff_of_false (by decide) ?_⟩
      · intro h; linarith
      · rintro ⟨h, -⟩; linarith
      · intro h; linarith
    · rcases lt_or_le I 200 with h3 | h3
      · have hd : detect_frequency I = "semi-annual" := by
          simp [detect_frequency, MONTHLY_INTERVAL_MAX, QUARTERLY_INTERVAL_MAX,
            SEMI_ANNUAL_INTERVAL_MAX, not_lt.mpr h1, not_lt.mpr h2, h3]
        rw [hd]
        refine ⟨iff_of_false (by decide) ?_, iff_of_false (by decide) ?_,
          iff_of_true rfl ⟨h2, h3⟩, iff_of_false (by decide) ?_⟩
        · intro h; linarith
        · rintro ⟨-, h⟩; linarith
        · intro h; linarith
      · have hd : detect_frequency I = "annual" := by
          simp [detect_frequency, MONTHLY_INTERVAL_MAX, QUARTERLY_INTERVAL_MAX,
            SEMI_ANNUAL_INTERVAL_MAX, not_lt.mpr h1, not_lt.mpr h2, not_lt.mpr h3]
        rw [hd]
        refine ⟨iff_of_false (by decide) ?_, iff_of_false (by decide) ?_,
          iff_of_false (by decide) ?_, iff_of_true rfl h3⟩
        · intro h; linarith
        · rintro ⟨-, h⟩; linarith
        · rintro ⟨-, h⟩; linarith

/-! ### Sortedness facts feeding the average interval -/

theorem pairwise_zip_tail {α : Type} {R : α → α → Prop} :
    ∀ (l : List α), l.Pairwise R → ∀ p ∈ l.zip l.tail, R p.1 p.2
  | [], _, p, hp => absurd hp (by simp)
  | [a], _, p, hp => absurd hp (by simp)
  | a :: b :: t, h, p, hp => by
    simp only [List.tail_cons, List.zip_cons_cons, List.mem_cons] at hp
    rcases hp with rfl | hp2
    · exact (List.pairwise_cons.mp h).1 b (by simp)
    · exact pairwise_zip_tail (b :: t) (List.pairwise_cons.mp h).2 p (by simpa using hp2)

theorem sortedDivs_sorted (divs : List (ℚ × ℚ)) :
    (sortedDivs divs).Pairwise (fun a b => a.1 ≤ b.1) := by
  haveI : IsTotal (ℚ × ℚ) (fun a b => a.1 ≤ b.1) := ⟨fun a b => le_total a.1 b.1⟩
  haveI : IsTrans (ℚ × ℚ) (fun a b => a.1 ≤ b.1) := ⟨fun _ _ _ h1 h2 => le_trans h1 h2⟩
  exact List.sorted_insertionSort _ _

theorem recentIntervals_nonneg (dates : List ℚ) (hs : dates.Pairwise (fun a b => a ≤ b)) :
    ∀ i ∈ recentIntervals dates, 0 ≤ i := by
  intro i hi
  unfold recentIntervals at hi
  have hi2 := List.take_subset _ _ hi
  obtain ⟨p, hp, rfl⟩ := List.mem_map.mp hi2
  have hrev : dates.reverse.Pairwise (fun a b => b ≤ a) := List.pairwise_reverse.mpr hs
  have hba : p.2 ≤ p.1 := pairwise_zip_tail _ hrev p hp
  have h0 : ((0 : ℤ) : ℚ) ≤ p.1 - p.2 := by push_cast; linarith
  exact Rat.le_floor.mpr h0

theorem avgIntervalOf_nonneg (divs : List (ℚ × ℚ)) : 0 ≤ avgIntervalOf divs := by
  have hdates : ((sortedDivs divs).map Prod.fst).Pairwise (fun a b => a ≤ b) :=
    (sortedDivs_sorted divs).map Prod.fst (fun _ _ h => h)
  unfold avgIntervalOf avgOfIntervals
  apply div_nonneg
  · apply List.sum_nonneg
    intro x hx
    obtain ⟨i, hi, rfl⟩ := List.mem_map.mp hx
    have h0 : (0 : ℤ) ≤ i := recentIntervals_nonneg _ hdates i hi
    exact_mod_cast h0
  · exact Nat.cast_nonneg _

/-! ### The drop/keep trace of the loop (for C3) -/

theorem projectFlags_all_true (cd pe iv : ℚ) (hiv : 0 ≤ iv) :
    ∀ (fuel : Nat) (next : ℚ) (count : Nat), cd < next →
      ∀ b ∈ projectFlags cd pe iv fuel next count, b = true := by
  intro fuel
  induction fuel with
  | zero => intro next count _ b hb; simp [projectFlags] at hb
  | succ n ih =>
    intro next count h b hb
    unfold projectFlags at hb
    split at hb
    · rcases List.mem_cons.mp hb with rfl | hb2
      · exact decide_eq_true h
      · exact ih (next + iv) _ (lt_of_lt_of_le h (by linarith)) b hb2
    · simp at hb

theorem projectFlags_dropWhile_true (cd pe iv : ℚ) (hiv : 0 ≤ iv) :
    ∀ (fuel : Nat) (next : ℚ) (count : Nat),
      ∀ b ∈ (projectFlags cd pe iv fuel next count).dropWhile (fun x => !x), b = true := by
  intro fuel
  induction fuel with
  | zero => intro next count b hb; simp [projectFlags] at hb
  | succ n ih =>
    intro next count b hb
    unfold projectFlags at hb
    split at hb
    · by_cases h : cd < next
      · rw [decide_eq_true h] at hb
        simp only [List.dropWhile_cons, Bool.not_true] at hb
        rcases List.mem_cons.mp (by simpa using hb) with rfl | hb2
        · rfl
        · exact projectFlags_all_true cd pe iv hiv n (next + iv) _
            (lt_of_lt_of_le h (by linarith)) b hb2
      · rw [decide_eq_false h] at hb
        simp only [List.dropWhile_cons, Bool.not_false] at hb
        exact ih (next + iv) _ b (by simpa using hb)
    · simp at hb

/-- Ghost link: the boolean trace counts exactly the payments the real loop
appends — a successful `projectLoop` run returns `acc` extended by one entry
per `true` flag of `projectFlags` started from the same state. -/
theorem projectLoop_length_eq_count (cd pe iv la : ℚ) :
    ∀ (fuel : Nat) (next : ℚ) (acc res : List (ℚ × ℚ)),
      projectLoop cd pe iv la fuel next acc = some res →
      res.length = acc.length + (projectFlags cd pe iv fuel next acc.length).count true := by
  intro fuel
  induction fuel with
  | zero =>
    intro next acc res h
    unfold projectLoop at h
    unfold projectFlags
    split at h
    · exact Option.noConfusion h
    · obtain rfl := Option.some.inj h
      simp
  | succ n ih =>
    intro next acc res h
    unfold projectLoop at h
    unfold projectFlags
    split at h
    next hg =>
      rw [if_pos hg]
      by_cases hcd : cd < next
      · rw [if_pos hcd] at h
        have hlen := ih _ _ _ h
        rw [decide_eq_true hcd]
        simp only [List.length_append, List.length_cons, List.length_nil,
          Nat.zero_add] at hlen
        simp only [if_pos hcd, List.count_cons, beq_self_eq_true, if_true]
        omega
      · rw [if_neg hcd] at h
        have hlen := ih _ _ _ h
        rw [decide_eq_false hcd]
        simp only [if_neg hcd, Nat.add_zero]
        simp [List.count_cons]
        omega
    next hg =>
      rw [if_neg hg]
      obtain rfl := Option.some.inj h
      simp

/-- C3 counterexample: with history `[(0, 1), (30, 1)]` (average interval 30
days) and calculation time 100, the first two computed candidate dates (60
and 90) are both ≤ now and both silently dropped — the trace of the
projection loop run by `estimate_future_dividends` on this input starts with
two `false` (dropped) iterations, refuting the claim that a dropped
candidate can occur only at the very first computed step. -/
theorem estimateFlags_two_initial_drops :
    (estimateFlags [(0, 1), (30, 1)] 12 100 20).take 2 = [false, false] := by
  with_unfolding_all decide

/-- C3 (amended): a candidate date ≤ now is silently dropped, and the
dropped candidates form an initial prefix of the iterations: since the
average interval is non-negative, once a candidate is strictly after now
every later candidate is strictly after now too (but more than one initial
candidate can be dropped, not only the very first). -/
theorem estimateFlags_drops_initial_segment (divs : List (ℚ × ℚ)) (months_ahead : ℤ)
    (current_date : ℚ) (fuel : Nat) (b : Bool)
    (hb : b ∈ (estimateFlags divs months_ahead current_date fuel).dropWhile
      (fun x => !x)) :
    b = true :=
  projectFlags_dropWhile_true _ _ _ (avgIntervalOf_nonneg divs) fuel _ 0 b hb

theorem estimateFlags_drops_initial_segment_witness :
    (true ∈ (estimateFlags [(0, 1), (30, 1)] 12 100 20).dropWhile (fun x => !x)) ∧
      true = true :=
  ⟨by with_unfolding_all decide,
    estimateFlags_drops_initial_segment [(0, 1), (30, 1)] 12 100 20 true
      (by with_unfolding_all decide)⟩

/-! ### Termination of the projection loop (for C4) -/

theorem intervalsOf_length (divs : List (ℚ × ℚ)) :
    (intervalsOf divs).length = min 4 (divs.length - 1) := by
  unfold intervalsOf recentIntervals
  simp only [List.length_take, List.length_map, List.length_zip, List.length_reverse,
    List.length_tail, sortedDivs, List.length_insertionSort]
  omega

theorem projectLoop_advances (cd pe iv la : ℚ) :
    ∀ (n : Nat) (next : ℚ) (acc : List (ℚ × ℚ)), pe < next + n * iv →
      (projectLoop cd pe iv la n next acc).isSome := by
  intro n
  induction n with
  | zero =>
    intro next acc h
    unfold projectLoop
    rw [if_neg]
    · simp
    · rintro ⟨h1, -⟩
      simp only [Nat.cast_zero, zero_mul, add_zero] at h
      linarith
  | succ m ih =>
    intro next acc h
    unfold projectLoop
    split
    · apply ih
      push_cast at h ⊢
      linarith
    · simp

theorem projectLoop_terminates (cd pe iv la : ℚ) (hiv : 0 < iv)
    (next : ℚ) (acc : List (ℚ × ℚ)) :
    ∃ fuel, (projectLoop cd pe iv la fuel next acc).isSome := by
  obtain ⟨n, hn⟩ := exists_nat_gt ((pe - next) / iv)
  refine ⟨n, projectLoop_advances cd pe iv la n next acc ?_⟩
  rw [div_lt_iff₀ hiv] at hn
  linarith

theorem projectLoop_stuck (cd pe la next : ℚ) (hle : next ≤ cd) (hpe : next ≤ pe) :
    ∀ (fuel : Nat) (acc : List (ℚ × ℚ)), acc.length < MAX_PROJECTED_DIVIDENDS →
      projectLoop cd pe 0 la fuel next acc = none := by
  intro fuel
  induction fuel with
  | zero =>
    intro acc hlen
    unfold projectLoop
    rw [if_pos ⟨hpe, hlen⟩]
  | succ n ih =>
    intro acc hlen
    unfold projectLoop
    rw [if_pos ⟨hpe, hlen⟩, if_neg (not_lt.mpr hle), add_zero]
    exact ih acc hlen

/-- C4: with at least two payments in the history, (a) a strictly positive
average interval guarantees the projection loop of
`estimate_future_dividends` terminates (some fuel suffices), and (b) when
the average interval is 0 days and the last historical payment date is no
later than both the calculation time and the projection end
`now + 30 * months_ahead` days, the loop never advances its candidate date
and diverges: the fuel-indexed run is `none` for every fuel. -/
theorem estimate_future_dividends_termination (divs : List (ℚ × ℚ)) (months_ahead : ℤ)
    (current_date : ℚ) (h2 : 2 ≤ divs.length) :
    (0 < avgIntervalOf divs →
      ∃ fuel, (estimate_future_dividends (some divs) months_ahead current_date
        fuel).isSome) ∧
    (avgIntervalOf divs = 0 →
      (lastDivOf divs).1 ≤ current_date →
      (lastDivOf divs).1 ≤ current_date + 30 * (months_ahead : ℚ) →
      ∀ fuel, estimate_future_dividends (some divs) months_ahead current_date fuel
        = none) := by
  have hlen2 : ¬ divs.length < 2 := by omega
  have hint : ¬ (intervalsOf divs).length = 0 := by
    rw [intervalsOf_length]; omega
  constructor
  · intro hpos
    obtain ⟨fuel, hf⟩ := projectLoop_terminates current_date
      (current_date + 30 * (months_ahead : ℚ)) (avgIntervalOf divs) (lastDivOf divs).2
      hpos ((lastDivOf divs).1 + avgIntervalOf divs) []
    obtain ⟨res, hres⟩ := Option.isSome_iff_exists.mp hf
    refine ⟨fuel, ?_⟩
    simp only [estimate_future_dividends, if_neg hlen2, if_neg hint, hres]
    simp
  · intro h0 hcd hpe fuel
    have hstuck := projectLoop_stuck current_date (current_date + 30 * (months_ahead : ℚ))
      (lastDivOf divs).2 (lastDivOf divs).1 hcd hpe fuel []
      (by simp [MAX_PROJECTED_DIVIDENDS])
    simp only [estimate_future_dividends, if_neg hlen2, if_neg hint, h0, add_zero, hstuck]

theorem estimate_future_dividends_termination_witness :
    (2 ≤ ([((5 : ℚ), (1 : ℚ)), (5, 1)] : List (ℚ × ℚ)).length) ∧
      ((0 < avgIntervalOf [((5 : ℚ), (1 : ℚ)), (5, 1)] →
        ∃ fuel, (estimate_future_dividends (some [((5 : ℚ), (1 : ℚ)), (5, 1)]) 12 10
          fuel).isSome) ∧
      (avgIntervalOf [((5 : ℚ), (1 : ℚ)), (5, 1)] = 0 →
        (lastDivOf [((5 : ℚ), (1 : ℚ)), (5, 1)]).1 ≤ 10 →
        (lastDivOf [((5 : ℚ), (1 : ℚ)), (5, 1)]).1 ≤ 10 + 30 * ((12 : ℤ) : ℚ) →
        ∀ fuel, estimate_future_dividends (some [((5 : ℚ), (1 : ℚ)), (5, 1)]) 12 10 fuel
          = none)) :=
  ⟨by decide,
    estimate_future_dividends_termination [((5 : ℚ), (1 : ℚ)), (5, 1)] 12 10 (by decide)⟩

/-! ### Aggregation conservation (for C5) -/

theorem addToKey_sum (k : String) (v : ℚ) :
    ∀ m : List (String × ℚ), ((addToKey m k v).map Prod.snd).sum = (m.map Prod.snd).sum + v
  | [] => by simp [addToKey]
  | (k2, v2) :: rest => by
    unfold addToKey
    by_cases h : k2 = k
    · rw [if_pos h]
      simp [add_assoc, add_comm v]
    · rw [if_neg h]
      simp only [List.map_cons, List.sum_cons, addToKey_sum k v rest]
      ring

theorem foldl_addToKey_sum (monthKey : ℚ → String) (shares : ℚ) :
    ∀ (future : List (ℚ × ℚ)) (m : List (String × ℚ)),
      ((future.foldl (fun m2 p => addToKey m2 (monthKey p.1) (p.2 * shares)) m).map
        Prod.snd).sum =
      (m.map Prod.snd).sum + ((future.map (fun p => p.2 * shares)).sum)
  | [], m => by simp
  | p :: rest, m => by
    simp only [List.foldl_cons, List.map_cons, List.sum_cons,
      foldl_addToKey_sum monthKey shares rest, addToKey_sum]
    ring

theorem processSymbol_conservation (getDiv : String → Option (List (ℚ × ℚ)))
    (getYield getPrice : String → Option ℚ) (monthKey : ℚ → String)
    (months_ahead : ℤ) (current_date : ℚ) (fuel : Nat) (symbol : String)
    (shares? : Option ℚ)
    (st st2 : List (String × ℚ) × List DividendDetail × List (String × ℚ))
    (h : processSymbol getDiv getYield getPrice monthKey months_ahead current_date fuel
      symbol shares? st = some st2) :
    (st2.1.map Prod.snd).sum + ((st.2.1.map (fun dd => dd.total)).sum) =
      (st.1.map Prod.snd).sum + ((st2.2.1.map (fun dd => dd.total)).sum) := by
  unfold processSymbol at h
  split at h
  · obtain rfl := Option.some.inj h
    ring
  · split at h
    · obtain rfl := Option.some.inj h
      ring
    · obtain rfl := Option.some.inj h
      ring
    · split at h
      · exact Option.noConfusion h
      · obtain rfl := Option.some.inj h
        simp only [foldl_addToKey_sum, List.map_append, List.sum_append, List.map_map,
          Function.comp_def]
        ring

theorem calcDivLoop_conservation (getDiv : String → Option (List (ℚ × ℚ)))
    (getYield getPrice : String → Option ℚ) (monthKey : ℚ → String)
    (months_ahead : ℤ) (current_date : ℚ) (fuel : Nat) :
    ∀ (portfolio : List (String × Option ℚ))
      (st res : List (String × ℚ) × List DividendDetail × List (String × ℚ)),
      calcDivLoop getDiv getYield getPrice monthKey months_ahead current_date fuel
        portfolio st = some res →
      (res.1.map Prod.snd).sum + ((st.2.1.map (fun dd => dd.total)).sum) =
        (st.1.map Prod.snd).sum + ((res.2.1.map (fun dd => dd.total)).sum)
  | [], st, res, h => by
    obtain rfl := Option.some.inj h
    ring
  | (symbol, shares?) :: rest, st, res, h => by
    unfold calcDivLoop at h
    split at h
    next => exact Option.noConfusion h
    next st2 hsym =>
      have h1 := processSymbol_conservation getDiv getYield getPrice monthKey months_ahead
        current_date fuel symbol shares? st st2 hsym
      have h2 := calcDivLoop_conservation getDiv getYield getPrice monthKey months_ahead
        current_date fuel rest st2 res h
      linarith

/-- C5: conservation law of the monthly aggregation — whenever
`calculate_dividends` succeeds, the sum over all month keys of the
monthly totals equals the sum of the `total` fields of all
`DividendDetail` records it returns: each projected payment contributes
`amount_per_share * shares` to exactly one month bucket and exactly one
detail record. -/
theorem calculate_dividends_conservation (getDiv : String → Option (List (ℚ × ℚ)))
    (getYield getPrice : String → Option ℚ) (monthKey : ℚ → String)
    (months_ahead : ℤ) (current_date : ℚ) (fuel : Nat)
    (portfolio : List (String × Option ℚ))
    (monthly : List (String × ℚ)) (details : List DividendDetail)
    (annual : List (String × ℚ))
    (h : calculate_dividends getDiv getYield getPrice monthKey months_ahead current_date
      fuel portfolio = some (monthly, details, annual)) :
    (monthly.map Prod.snd).sum = (details.map (fun dd => dd.total)).sum := by
  have := calcDivLoop_conservation getDiv getYield getPrice monthKey months_ahead
    current_date fuel portfolio ([], [], []) (monthly, details, annual) h
  simpa using this

theorem calculate_dividends_conservation_witness :
    (calculate_dividends (fun _ => some [(0, 24/100), (91, 24/100)]) (fun _ => none)
        (fun _ => none) (fun _ => "month") 12 100 50 [("AAPL", some 50)] =
      some (([(("month" : String), (48 : ℚ))]),
        ([⟨"AAPL", 182, 6/25, 50, 12⟩, ⟨"AAPL", 273, 6/25, 50, 12⟩,
          ⟨"AAPL", 364, 6/25, 50, 12⟩, ⟨"AAPL", 455, 6/25, 50, 12⟩] :
          List DividendDetail),
        ([(("AAPL" : String), (48 : ℚ))]))) ∧
    (([(("month" : String), (48 : ℚ))].map Prod.snd).sum =
      (([⟨"AAPL", 182, 6/25, 50, 12⟩, ⟨"AAPL", 273, 6/25, 50, 12⟩,
         ⟨"AAPL", 364, 6/25, 50, 12⟩,
         (⟨"AAPL", 455, 6/25, 50, 12⟩ : DividendDetail)]).map (fun dd => dd.total)).sum) :=
  ⟨by with_unfolding_all decide,
    calculate_dividends_conservation (fun _ => some [(0, 24/100), (91, 24/100)])
      (fun _ => none) (fun _ => none) (fun _ => "month") 12 100 50 [("AAPL", some 50)]
      [("month", 48)]
      [⟨"AAPL", 182, 6/25, 50, 12⟩, ⟨"AAPL", 273, 6/25, 50, 12⟩,
       ⟨"AAPL", 364, 6/25, 50, 12⟩, ⟨"AAPL", 455, 6/25, 50, 12⟩]
      [("AAPL", 48)] (by with_unfolding_all decide)⟩

/-! ### Fallback estimation (for C9) -/

theorem lookup_setKey (k : String) (v : ℚ) :
    ∀ m : List (String × ℚ), (setKey m k v).lookup k = some v
  | [] => by simp [setKey, List.lookup]
  | (k2, v2) :: rest => by
    unfold setKey
    by_cases h : k2 = k
    · subst h
      simp [List.lookup]
    · rw [if_neg h]
      have hbeq : (k == k2) = false := beq_eq_false_iff_ne.mpr (Ne.symm h)
      simp [List.lookup, hbeq, lookup_setKey k v rest]

/-- C9: for a symbol whose dividend history is absent (`None`) or empty,
the symbol loop of `calculate_dividends` leaves the monthly totals and
detail records untouched; if a (truthy) trailing yield rate and a (truthy)
current price are both obtainable it records the annual dividend
`price * yield_rate * shares` for the symbol, and if the yield or the
price is unobtainable (absent or zero, i.e. falsy) it records nothing at
all, contributing zero to every dividend total. -/
theorem processSymbol_fallback (getDiv : String → Option (List (ℚ × ℚ)))
    (getYield getPrice : String → Option ℚ) (monthKey : ℚ → String)
    (months_ahead : ℤ) (current_date : ℚ) (fuel : Nat) (symbol : String) (shares : ℚ)
    (m : List (String × ℚ)) (d : List DividendDetail) (a : List (String × ℚ))
    (hdiv : getDiv symbol = none ∨ getDiv symbol = some []) :
    ∃ a2, processSymbol getDiv getYield getPrice monthKey months_ahead current_date fuel
        symbol (some shares) (m, d, a) = some (m, d, a2) ∧
      (∀ r p, getYield symbol = some r → r ≠ 0 → getPrice symbol = some p → p ≠ 0 →
        a2 = setKey a symbol (p * r * shares) ∧
          a2.lookup symbol = some (p * r * shares)) ∧
      ((getYield symbol = none ∨ getYield symbol = some 0 ∨ getPrice symbol = none ∨
        getPrice symbol = some 0) → a2 = a) := by
  have main :
      (∀ r p, getYield symbol = some r → r ≠ 0 → getPrice symbol = some p → p ≠ 0 →
        fallbackAnnual getYield getPrice symbol shares a = setKey a symbol (p * r * shares) ∧
          (fallbackAnnual getYield getPrice symbol shares a).lookup symbol =
            some (p * r * shares)) ∧
      ((getYield symbol = none ∨ getYield symbol = some 0 ∨ getPrice symbol = none ∨
        getPrice symbol = some 0) → fallbackAnnual getYield getPrice symbol shares a = a) := by
    constructor
    · intro r p hy hr hp hp0
      have ha2 : fallbackAnnual getYield getPrice symbol shares a =
          setKey a symbol (p * r * shares) := by
        simp [fallbackAnnual, hy, hp, hr, hp0]
      exact ⟨ha2, ha2 ▸ lookup_setKey symbol (p * r * shares) a⟩
    · intro hfalsy
      rcases hfalsy with hy | hy | hp | hp
      · simp [fallbackAnnual, hy]
      · simp [fallbackAnnual, hy]
      · rcases hye : getYield symbol with - | r
        · simp [fallbackAnnual, hye]
        · by_cases hr : r = 0
          · simp [fallbackAnnual, hye, hr]
          · simp [fallbackAnnual, hye, hr, hp]
      · rcases hye : getYield symbol with - | r
        · simp [fallbackAnnual, hye]
        · by_cases hr : r = 0
          · simp [fallbackAnnual, hye, hr]
          · simp [fallbackAnnual, hye, hr, hp]
  rcases hdiv with hdiv | hdiv
  · refine ⟨_, ?_, main.1, main.2⟩
    unfold processSymbol
    rw [hdiv]
  · refine ⟨_, ?_, main.1, main.2⟩
    unfold processSymbol
    rw [hdiv]

theorem processSymbol_fallback_witness :
    ((fun _ : String => some ([] : List (ℚ × ℚ))) "VMFXX" = none ∨
      (fun _ : String => some ([] : List (ℚ × ℚ))) "VMFXX" = some []) ∧
    ∃ a2, processSymbol (fun _ => some []) (fun _ => some (2/100)) (fun _ => some 100)
        (fun _ => "month") 12 100 50 "VMFXX" (some 10) ([], [], []) = some ([], [], a2) ∧
      (∀ r p, (fun _ : String => some ((2 : ℚ)/100)) "VMFXX" = some r → r ≠ 0 →
        (fun _ : String => some ((100 : ℚ))) "VMFXX" = some p → p ≠ 0 →
        a2 = setKey [] "VMFXX" (p * r * 10) ∧ a2.lookup "VMFXX" = some (p * r * 10)) ∧
      (((fun _ : String => some ((2 : ℚ)/100)) "VMFXX" = none ∨
        (fun _ : String => some ((2 : ℚ)/100)) "VMFXX" = some 0 ∨
        (fun _ : String => some ((100 : ℚ))) "VMFXX" = none ∨
        (fun _ : String => some ((100 : ℚ))) "VMFXX" = some 0) → a2 = []) :=
  ⟨Or.inr rfl,
    processSymbol_fallback (fun _ => some []) (fun _ => some (2/100)) (fun _ => some 100)
      (fun _ => "month") 12 100 50 "VMFXX" 10 [] [] [] (Or.inr rfl)⟩

/-! ### Trend percentages (for C10) -/

/-- C10: every percentage-change computation of the trend analysis with a
zero denominator yields a defined zero-percent result instead of dividing
by zero: the per-step pairwise change against a previous snapshot of value
0, and the whole-period value and dividend percentage changes when the
value or dividend total of the first snapshot is 0. -/
theorem zero_denominator_pct_defined (value w : ℚ) :
    format_change value (some 0) = some (value, 0) ∧
    period_value_change_pct 0 value = 0 ∧
    period_div_change_pct 0 w = 0 := by
  refine ⟨?_, ?_, ?_⟩ <;>
    simp [format_change, period_value_change_pct, period_div_change_pct]

/-! ### Snapshot store lemmas (for C6, C7, C8) -/

theorem readFile_writeFile_same (k : ℤ) (c : FileContent) :
    ∀ st : Store, readFile (writeFile st k c) k = some c
  | [] => by simp [writeFile, readFile]
  | (k2, c2) :: rest => by
    unfold writeFile
    by_cases h : k2 = k
    · rw [if_pos h]
      simp [readFile]
    · rw [if_neg h]
      simp only [readFile, if_neg h]
      exact readFile_writeFile_same k c rest

theorem readFile_writeFile_ne (k k2 : ℤ) (c : FileContent) (hne : k2 ≠ k) :
    ∀ st : Store, readFile (writeFile st k c) k2 = readFile st k2
  | [] => by
    simp only [writeFile, readFile]
    rw [if_neg (fun h : k = k2 => hne h.symm)]
  | (k3, c3) :: rest => by
    unfold writeFile
    by_cases h : k3 = k
    · rw [if_pos h]
      simp only [readFile]
      rw [if_neg (fun hh : k = k2 => hne hh.symm),
        if_neg (fun hh : k3 = k2 => hne (hh.symm.trans h))]
    · rw [if_neg h]
      simp only [readFile]
      by_cases h2 : k3 = k2
      · rw [if_pos h2, if_pos h2]
      · rw [if_neg h2, if_neg h2]
        exact readFile_writeFile_ne k k2 c hne rest

theorem writeFile_length_of_present (k : ℤ) (c : FileContent) :
    ∀ st : Store, readFile st k ≠ none → (writeFile st k c).length = st.length
  | [], h => absurd rfl h
  | (k2, c2) :: rest, h => by
    unfold writeFile
    by_cases hk : k2 = k
    · rw [if_pos hk]
      simp
    · rw [if_neg hk]
      simp only [List.length_cons]
      rw [writeFile_length_of_present k c rest]
      intro hnone
      apply h
      simp [readFile, if_neg hk, hnone]

theorem writeFile_keys_subset (k : ℤ) (c : FileContent) :
    ∀ (st : Store) (x : ℤ), x ∈ (writeFile st k c).map Prod.fst →
      x = k ∨ x ∈ st.map Prod.fst
  | [], x, hx => by simpa [writeFile] using hx
  | (k2, c2) :: rest, x, hx => by
    unfold writeFile at hx
    by_cases hk : k2 = k
    · rw [if_pos hk] at hx
      rcases (by simpa using hx : x = k ∨ x ∈ rest.map Prod.fst) with rfl | hx2
      · exact Or.inl rfl
      · exact Or.inr (by simp [hx2])
    · rw [if_neg hk] at hx
      rcases (by simpa using hx : x = k2 ∨ x ∈ (writeFile rest k c).map Prod.fst)
        with rfl | hx2
      · exact Or.inr (by simp)
      · rcases writeFile_keys_subset k c rest x hx2 with rfl | hx3
        · exact Or.inl rfl
        · exact Or.inr (by simp [hx3])

theorem writeFile_keys_nodup (k : ℤ) (c : FileContent) :
    ∀ st : Store, (st.map Prod.fst).Nodup → ((writeFile st k c).map Prod.fst).Nodup
  | [], _ => by simp [writeFile]
  | (k2, c2) :: rest, h => by
    simp only [List.map_cons, List.nodup_cons] at h
    unfold writeFile
    by_cases hk : k2 = k
    · rw [if_pos hk]
      simp only [List.map_cons, List.nodup_cons]
      exact ⟨hk ▸ h.1, h.2⟩
    · rw [if_neg hk]
      simp only [List.map_cons, List.nodup_cons]
      refine ⟨?_, writeFile_keys_nodup k c rest h.2⟩
      intro hmem
      rcases writeFile_keys_subset k c rest k2 hmem with rfl | hmem2
      · exact hk rfl
      · exact h.1 hmem2

theorem lookup_map_metric (f : StockMetric → List (String × ℚ)) :
    ∀ (l : List (String × StockMetric)) (a : String),
      (l.map (fun p => (p.1, f p.2))).lookup a = (l.lookup a).map f
  | [], a => rfl
  | (k, b) :: rest, a => by
    simp only [List.map_cons, List.lookup]
    cases h : a == k
    · simp only [lookup_map_metric f rest a]
    · simp [Option.map]

/-- C6: snapshot round-trip — `save_historical` followed by
`load_historical` of the same date returns exactly the record that was
serialized; every populated snapshot-level field is reproduced exactly
(rational numbers, so bit-for-bit), the metrics of each symbol serialize
through `serializeMetric`, and in a serialized metric every optional field
that was present is reproduced exactly while every absent (`None`) field
is omitted from the persisted record — looking it up finds no entry, not a
null token — with no spurious defaults injected. -/
theorem save_load_roundtrip (st : Store) (results : CalcResults)
    (portfolio_path : String) (run_date : ℤ) :
    load_historical (save_historical st results portfolio_path run_date) run_date =
      Except.ok (some (serialize_results results portfolio_path run_date)) ∧
    (∀ v, results.total_value = some v →
      (serialize_results results portfolio_path run_date).total_value = v) ∧
    (∀ v, results.total_cost = some v →
      (serialize_results results portfolio_path run_date).total_cost = v) ∧
    (∀ md, results.monthly_dividends = some md →
      (serialize_results results portfolio_path run_date).monthly_dividends = md) ∧
    (∀ sa, results.stock_annual_dividends = some sa →
      (serialize_results results portfolio_path run_date).stock_annual_dividends = sa) ∧
    (∀ sym, ((serialize_results results portfolio_path run_date).metrics).lookup sym =
      ((results.metrics.getD []).lookup sym).map serializeMetric) ∧
    (∀ m : StockMetric,
      (serializeMetric m).lookup "shares" = some m.shares ∧
      (serializeMetric m).lookup "current_value" = some m.current_value ∧
      (serializeMetric m).lookup "current_price" = m.current_price ∧
      (serializeMetric m).lookup "cost_basis" = m.cost_basis ∧
      (serializeMetric m).lookup "gain_loss" = m.gain_loss ∧
      (serializeMetric m).lookup "gain_loss_pct" = m.gain_loss_pct) := by
  refine ⟨?_, ?_, ?_, ?_, ?_, ?_, ?_⟩
  · simp [load_historical, save_historical, readFile_writeFile_same]
  · intro v hv; simp [serialize_results, hv]
  · intro v hv; simp [serialize_results, hv]
  · intro md hmd; simp [serialize_results, hmd]
  · intro sa hsa; simp [serialize_results, hsa]
  · intro sym
    simp only [serialize_results]
    exact lookup_map_metric serializeMetric _ sym
  · intro m
    obtain ⟨sh, cp, cv, cb, gl, gp⟩ := m
    refine ⟨?_, ?_, ?_, ?_, ?_, ?_⟩ <;>
      rcases cp with - | vcp <;> rcases cb with - | vcb <;> rcases gl with - | vgl <;>
      rcases gp with - | vgp <;> simp [serializeMetric, optField, List.lookup]

theorem save_load_roundtrip_witness :
    load_historical (save_historical ([] : Store)
        ⟨some 1000, none, some [("January 2026", 12)], some [("AAPL", 48)],
          some [("AAPL", ⟨50, some 230, 11500, none, none, none⟩)]⟩ "portfolio.csv" 20480)
        20480 =
      Except.ok (some (serialize_results
        ⟨some 1000, none, some [("January 2026", 12)], some [("AAPL", 48)],
          some [("AAPL", ⟨50, some 230, 11500, none, none, none⟩)]⟩
        "portfolio.csv" 20480)) ∧
    (serializeMetric ⟨50, some 230, 11500, none, none, none⟩).lookup "cost_basis"
      = none :=
  ⟨(save_load_roundtrip [] ⟨some 1000, none, some [("January 2026", 12)],
      some [("AAPL", 48)],
      some [("AAPL", ⟨50, some 230, 11500, none, none, none⟩)]⟩
      "portfolio.csv" 20480).1,
    ((save_load_roundtrip [] ⟨some 1000, none, some [("January 2026", 12)],
      some [("AAPL", 48)],
      some [("AAPL", ⟨50, some 230, 11500, none, none, none⟩)]⟩
      "portfolio.csv" 20480).2.2.2.2.2.2 ⟨50, some 230, 11500, none, none, none⟩).2.2.2.1⟩

/-- C7 counterexample: the repository also contains a second
`load_historical`, in the superseded module core/historical.py — the one
re-exported by core/__init__.py — whose `except Exception: return None`
maps a date whose record exists but is corrupt to `none`, exactly its
result for a date with no record at all: the two failure kinds are
conflated, while on the same store the storage-module `load_historical`
raises the distinct corrupt-data error. -/
theorem load_historical_legacy_conflates :
    load_historical_legacy [((0 : ℤ), FileContent.corrupt)] 0 = none ∧
    load_historical_legacy ([] : Store) 0 = none ∧
    load_historical [((0 : ℤ), FileContent.corrupt)] 0 =
      Except.error (HistError.corruptData (get_historical_filename 0) "JSONDecodeError") :=
  ⟨rfl, rfl, rfl⟩

/-- C7 (amended): the storage-module `load_historical`
(core/historical_storage.py) distinguishes the two failure kinds and never
conflates them — for every store and date exactly one of three outcomes
occurs, determined by the state of the slot of that date: no persisted record →
the non-fatal not-found result `ok none`; record present and parseable →
`ok (some snapshot)`; record present but unparseable → the distinct
`HistoricalDataCorruptError`.  (The superseded `load_historical` of
core/historical.py returns `None` for a corrupt record, conflating it with
not-found — see the counterexample.) -/
theorem load_historical_trichotomy (st : Store) (run_date : ℤ) :
    (readFile st run_date = none ∧ load_historical st run_date = Except.ok none) ∨
    (∃ d, readFile st run_date = some (FileContent.valid d) ∧
      load_historical st run_date = Except.ok (some d)) ∨
    (readFile st run_date = some FileContent.corrupt ∧
      load_historical st run_date = Except.error (HistError.corruptData
        (get_historical_filename run_date) "JSONDecodeError")) := by
  cases h : readFile st run_date with
  | none => exact Or.inl ⟨rfl, by simp [load_historical, h]⟩
  | some c =>
    cases c with
    | valid d => exact Or.inr (Or.inl ⟨d, rfl, by simp [load_historical, h]⟩)
    | corrupt => exact Or.inr (Or.inr ⟨rfl, by simp [load_historical, h]⟩)

/-- C8: snapshot-store slot invariant — with distinct slots in the store
(one file per date) and a date `k2` currently present: re-saving on a date
`k` that was already saved leaves the number of listed dates unchanged
(overwrite, not duplicate); a save preserves slot distinctness; and no
save — indeed no sequence of saves — ever turns the present slot `k2`
absent. -/
theorem save_historical_slot_invariants (st : Store) (r1 r2 : CalcResults)
    (p1 p2 : String) (k k2 : ℤ)
    (hnd : (st.map Prod.fst).Nodup) (hpres : readFile st k2 ≠ none) :
    (list_historical_dates (save_historical (save_historical st r1 p1 k) r2 p2 k)).length =
      (list_historical_dates (save_historical st r1 p1 k)).length ∧
    ((save_historical st r1 p1 k).map Prod.fst).Nodup ∧
    readFile (save_historical st r1 p1 k) k2 ≠ none ∧
    ∀ ops : List (CalcResults × String × ℤ),
      readFile (ops.foldl (fun s o => save_historical s o.1 o.2.1 o.2.2) st) k2 ≠ none := by
  have hstep : ∀ (s : Store) (r : CalcResults) (p : String) (kk : ℤ),
      readFile s k2 ≠ none → readFile (save_historical s r p kk) k2 ≠ none := by
    intro s r p kk hp
    by_cases hk : k2 = kk
    · subst hk
      rw [save_historical, readFile_writeFile_same]
      simp
    · rw [save_historical, readFile_writeFile_ne _ _ _ hk]
      exact hp
  refine ⟨?_, ?_, ?_, ?_⟩
  · unfold list_historical_dates
    simp only [List.length_insertionSort, List.length_map]
    apply writeFile_length_of_present
    rw [save_historical, readFile_writeFile_same]
    simp
  · exact writeFile_keys_nodup _ _ _ hnd
  · exact hstep st r1 p1 k hpres
  · have hfold : ∀ (ops : List (CalcResults × String × ℤ)) (s : Store),
        readFile s k2 ≠ none →
        readFile (ops.foldl (fun s2 o => save_historical s2 o.1 o.2.1 o.2.2) s) k2
          ≠ none := by
      intro ops
      induction ops with
      | nil => intro s hs; exact hs
      | cons o rest ih =>
        intro s hs
        simp only [List.foldl_cons]
        exact ih _ (hstep s o.1 o.2.1 o.2.2 hs)
    exact fun ops => hfold ops st hpres

theorem save_historical_slot_invariants_witness :
    ((([((3 : ℤ), FileContent.corrupt)] : Store).map Prod.fst).Nodup ∧
      readFile ([((3 : ℤ), FileContent.corrupt)] : Store) 3 ≠ none) ∧
    ((list_historical_dates (save_historical (save_historical
          [((3 : ℤ), FileContent.corrupt)] ⟨none, none, none, none, none⟩ "p" 7)
          ⟨none, none, none, none, none⟩ "q" 7)).length =
      (list_historical_dates (save_historical [((3 : ℤ), FileContent.corrupt)]
          ⟨none, none, none, none, none⟩ "p" 7)).length ∧
    ((save_historical [((3 : ℤ), FileContent.corrupt)]
        ⟨none, none, none, none, none⟩ "p" 7).map Prod.fst).Nodup ∧
    readFile (save_historical [((3 : ℤ), FileContent.corrupt)]
        ⟨none, none, none, none, none⟩ "p" 7) 3 ≠ none ∧
    ∀ ops : List (CalcResults × String × ℤ),
      readFile (ops.foldl (fun s o => save_historical s o.1 o.2.1 o.2.2)
        [((3 : ℤ), FileContent.corrupt)]) 3 ≠ none) :=
  ⟨⟨by decide, by decide⟩,
    save_historical_slot_invariants [((3 : ℤ), FileContent.corrupt)]
      ⟨none, none, none, none, none⟩ ⟨none, none, none, none, none⟩ "p" "q" 7 3
      (by decide) (by decide)⟩

end DividendTracker
